import Mathlib

/-!
Verification of the quiz data model and scoring engine of the
`final_test_bot_v3.1` repository (src/library/models.py,
src/library/question_loader.py), as a shallow embedding.

Randomness is made explicit: every place where the Python code draws from
the global `random` generator, the embedded function takes the drawn value
(a permutation of `0..n-1`, or a generator state) as an argument.
Python `int` is embedded as `ℤ`, Python `float` as `ℚ` (the scoring
arithmetic only divides, multiplies and compares at exactly representable
thresholds), Python `set` as `Finset`, and Python `dict` as a function to
`Option`.  A Python method that can raise returns `Option`.
-/

namespace QuizBot

/-- Difficulty levels. Modelled from the spec: `library/enum.py` is not part
of the provided sources; §3 of the spec describes a closed enumeration
{reserve, basic, standard, advanced}. No claim depends on its values. -/
inductive Difficulty
  | reserve
  | basic
  | standard
  | advanced
deriving DecidableEq

/-- Embedding of `Question` (models.py:14-28).  `correct_answers` holds
1-based option positions as Python ints. -/
structure Question where
  question : String
  options : List String
  correct_answers : Finset ℤ
  difficulty : Difficulty := Difficulty.basic
  original_options : Option (List String) := none
  shuffle_mapping : Option (List ℕ) := none
deriving DecidableEq

instance : Inhabited Question :=
  ⟨{ question := "", options := [], correct_answers := ∅ }⟩

/-- The construction-time validation of `Question` (models.py:21-23 Field
constraints plus the `validate_correct` validator, models.py:30-38):
prompt length in `[1, 2000]`, between 3 and 6 options, at least one
correct answer, and every correct answer a 1-based index into `options`. -/
def Question.Valid (q : Question) : Prop :=
  1 ≤ q.question.length ∧ q.question.length ≤ 2000 ∧
  3 ≤ q.options.length ∧ q.options.length ≤ 6 ∧
  q.correct_answers.Nonempty ∧
  ∀ c ∈ q.correct_answers, 1 ≤ c ∧ c ≤ (q.options.length : ℤ)

instance (q : Question) : Decidable q.Valid := by
  unfold Question.Valid
  infer_instance

/-- Pydantic construction of a `Question`: returns `none` exactly when a
field constraint or `validate_correct` (models.py:30-38) raises. -/
def mkQuestion (question : String) (options : List String)
    (correct : Finset ℤ) (difficulty : Difficulty) : Option Question :=
  if 1 ≤ question.length ∧ question.length ≤ 2000 ∧
      3 ≤ options.length ∧ options.length ≤ 6 ∧
      correct.Nonempty ∧
      ∀ c ∈ correct, 1 ≤ c ∧ c ≤ (options.length : ℤ) then
    some { question := question, options := options,
           correct_answers := correct, difficulty := difficulty }
  else none

/-- Embedding of the dict comprehension
`old_to_new = {old_idx: new_idx for new_idx, old_idx in enumerate(indices)}`
(models.py:64) together with a lookup that may miss: a later pair
overwrites an earlier one, so the lookup finds the LAST position at which
the value occurs; a missing key (Python `KeyError`) is `none`. -/
def oldToNew (indices : List ℕ) (o : ℤ) : Option ℕ :=
  (indices.enum.reverse.find? (fun p => decide ((p.2 : ℤ) = o))).map Prod.fst

/-- Embedding of the list comprehension
`[self.options[i] for i in indices]` (models.py:60): evaluated left to
right, failing (`IndexError`) as soon as an index is out of range. -/
def optionsAtIndices (l : List String) : List ℕ → Option (List String)
  | [] => some []
  | i :: is =>
    match l.get? i with
    | none => none
    | some x =>
      match optionsAtIndices l is with
      | none => none
      | some xs => some (x :: xs)

/-- Embedding of `Question.shuffle_options` (models.py:40-74).  The random
permutation `indices` (the outcome of `random.shuffle(list(range(n)))`,
models.py:55-56) is passed explicitly; `none` models an uncaught
`IndexError`/`KeyError` inside the method. -/
def Question.shuffle_options (q : Question) (indices : List ℕ) : Option Question :=
  let original_options := some (q.original_options.getD q.options)
  match optionsAtIndices q.options indices with
  | none => none
  | some shuffled_options =>
    if ∀ c ∈ q.correct_answers, (oldToNew indices (c - 1)).isSome = true then
      some { q with
        original_options := original_options,
        shuffle_mapping := some indices,
        options := shuffled_options,
        correct_answers := q.correct_answers.image
          (fun c => (((oldToNew indices (c - 1)).getD 0 : ℕ) : ℤ) + 1) }
    else none

/-- The option texts currently marked correct: the texts at the (1-based)
positions of `correct_answers` in `options`. -/
def correctTexts (q : Question) : Finset String :=
  q.correct_answers.image (fun c => q.options.getD (c - 1).toNat default)

lemma oldToNew_eq_some {indices : List ℕ} {o : ℤ} {j : ℕ}
    (h : oldToNew indices o = some j) :
    ∃ m : ℕ, indices.get? j = some m ∧ (m : ℤ) = o := by
  unfold oldToNew at h
  obtain ⟨p, hfind, hfst⟩ := Option.map_eq_some'.mp h
  obtain ⟨i, m⟩ := p
  have hpred0 := List.find?_some hfind
  have hpred : (m : ℤ) = o := by simpa using hpred0
  have hmem : (i, m) ∈ indices.enum :=
    List.mem_reverse.mp (List.mem_of_find?_eq_some hfind)
  have hget : indices.get? i = some m := by
    have := List.mk_mem_enum_iff_getElem?.mp hmem
    simpa [List.get?_eq_getElem?] using this
  exact ⟨m, by simpa [← hfst] using hget, hpred⟩

lemma oldToNew_isSome {indices : List ℕ} {m : ℕ} (h : m ∈ indices) :
    (oldToNew indices (m : ℤ)).isSome = true := by
  unfold oldToNew
  have hfs : (indices.enum.reverse.find?
      (fun p => decide ((p.2 : ℤ) = (m : ℤ)))).isSome = true := by
    rw [List.find?_isSome]
    obtain ⟨i, hi⟩ := List.mem_iff_get?.mp h
    refine ⟨(i, m), List.mem_reverse.mpr ?_, by simp⟩
    exact List.mk_mem_enum_iff_getElem?.mpr (by simpa [List.get?_eq_getElem?] using hi)
  obtain ⟨p, hp⟩ := Option.isSome_iff_exists.mp hfs
  simp only [hp, Option.map_some', Option.isSome_some]

lemma oldToNew_lt {indices : List ℕ} {o : ℤ} {j : ℕ}
    (h : oldToNew indices o = some j) : j < indices.length := by
  obtain ⟨m, hm, _⟩ := oldToNew_eq_some h
  obtain ⟨hlt, _⟩ := List.get?_eq_some.mp hm
  exact hlt

lemma optionsAtIndices_eq_map (l : List String) (indices : List ℕ)
    (h : ∀ i ∈ indices, i < l.length) :
    optionsAtIndices l indices = some (indices.map (fun i => l.getD i default)) := by
  induction indices with
  | nil => rfl
  | cons i is ih =>
    have hi : i < l.length := h i (List.mem_cons_self i is)
    have ha : l.get? i = some (l.get ⟨i, hi⟩) := List.get?_eq_get hi
    have hrec := ih (fun x hx => h x (List.mem_cons_of_mem _ hx))
    unfold optionsAtIndices
    rw [ha, hrec]
    simp [List.getD_eq_get?, ha, List.get?_eq_getElem?, List.getElem?_eq_getElem, hi]

lemma map_getD_range (l : List String) :
    (List.range l.length).map (fun i => l.getD i default) = l := by
  induction l with
  | nil => rfl
  | cons a t ih =>
    have h1 : List.range (a :: t).length = 0 :: (List.range t.length).map Nat.succ := by
      simpa using List.range_succ_eq_map t.length
    rw [h1]
    simp only [List.map_cons, List.map_map]
    refine congrArg₂ _ rfl ?_
    have h2 : ((fun i => (a :: t).getD i default) ∘ Nat.succ)
        = fun i => t.getD i default := by
      funext i
      simp
    rw [h2, ih]

/-- Workhorse: on a validly constructed question and a genuine permutation
of `0..n-1`, `shuffle_options` succeeds and preserves validity, prompt,
option count, the multiset of option texts, the number of correct answers,
and the set of correct option texts. -/
lemma shuffle_spec (q : Question) (indices : List ℕ) (hq : q.Valid)
    (hp : indices.Perm (List.range q.options.length)) :
    ∃ q', q.shuffle_options indices = some q' ∧
      q'.Valid ∧
      q'.question = q.question ∧
      q'.options.length = q.options.length ∧
      q'.options.Perm q.options ∧
      q'.correct_answers.card = q.correct_answers.card ∧
      correctTexts q' = correctTexts q := by
  obtain ⟨hq1, hq2, hq3, hq4, hq5, hq6⟩ := hq
  have hlen : indices.length = q.options.length :=
    hp.length_eq.trans (List.length_range _)
  have hmem : ∀ i ∈ indices, i < q.options.length :=
    fun i hi => List.mem_range.mp (hp.subset hi)
  have hC : ∀ c ∈ q.correct_answers, ∃ j, oldToNew indices (c - 1) = some j := by
    intro c hc
    obtain ⟨h1, h2⟩ := hq6 c hc
    have hm : (((c - 1).toNat : ℕ) : ℤ) = c - 1 := Int.toNat_of_nonneg (by omega)
    have hmn : (c - 1).toNat < q.options.length := by omega
    have hmem' : (c - 1).toNat ∈ indices := hp.mem_iff.mpr (List.mem_range.mpr hmn)
    have hs := oldToNew_isSome hmem'
    rw [hm] at hs
    exact Option.isSome_iff_exists.mp hs
  have hcond : ∀ c ∈ q.correct_answers, (oldToNew indices (c - 1)).isSome = true := by
    intro c hc
    obtain ⟨j, hj⟩ := hC c hc
    simp [hj]
  have hopts := optionsAtIndices_eq_map q.options indices hmem
  set f : ℕ → String := fun i => q.options.getD i default with hf
  set g : ℤ → ℤ := fun c => (((oldToNew indices (c - 1)).getD 0 : ℕ) : ℤ) + 1 with hg
  have hshuffle : q.shuffle_options indices = some
      { q with
        original_options := some (q.original_options.getD q.options),
        shuffle_mapping := some indices,
        options := indices.map f,
        correct_answers := q.correct_answers.image g } := by
    unfold Question.shuffle_options
    rw [hopts]
    simp only [if_pos hcond]
  -- facts about g on members of the correct set
  have hgj : ∀ c ∈ q.correct_answers, ∀ j, oldToNew indices (c - 1) = some j →
      g c = (j : ℤ) + 1 := by
    intro c _ j hj
    simp [hg, hj]
  have hperm : (indices.map f).Perm q.options := by
    have := hp.map f
    rwa [map_getD_range q.options] at this
  have hinj : Set.InjOn g q.correct_answers := by
    intro c1 hc1 c2 hc2 heq
    obtain ⟨j1, hj1⟩ := hC c1 hc1
    obtain ⟨j2, hj2⟩ := hC c2 hc2
    rw [hgj c1 hc1 j1 hj1, hgj c2 hc2 j2 hj2] at heq
    have hjj : j1 = j2 := by exact_mod_cast add_right_cancel heq
    obtain ⟨m1, hm1, hmo1⟩ := oldToNew_eq_some hj1
    obtain ⟨m2, hm2, hmo2⟩ := oldToNew_eq_some hj2
    rw [hjj, hm2] at hm1
    have hval : m2 = m1 := by injection hm1
    omega
  refine ⟨_, hshuffle, ?_, rfl, ?_, hperm, ?_, ?_⟩
  · -- validity of the shuffled question
    refine ⟨hq1, hq2, ?_, ?_, hq5.image g, ?_⟩
    · simpa [hlen] using hq3
    · simpa [hlen] using hq4
    · intro c' hc'
      obtain ⟨c, hc, hgc⟩ := Finset.mem_image.mp hc'
      obtain ⟨j, hj⟩ := hC c hc
      have hjlt : j < indices.length := oldToNew_lt hj
      rw [← hgc, hgj c hc j hj]
      simp only [List.length_map]
      omega
  · simp [hlen]
  · exact Finset.card_image_of_injOn hinj
  · -- the set of correct option texts is unchanged
    unfold correctTexts
    simp only [Finset.image_image]
    refine Finset.image_congr ?_
    intro c hc
    obtain ⟨j, hj⟩ := hC c hc
    obtain ⟨m, hm, hmo⟩ := oldToNew_eq_some hj
    obtain ⟨h1, h2⟩ := hq6 c hc
    have htn : (g c - 1).toNat = j := by
      rw [hgj c hc j hj]
      omega
    have hget : (indices.map f).get? j = some (f m) := by
      rw [List.get?_map, hm]
      rfl
    have hmtn : (c - 1).toNat = m := by omega
    simp only [Function.comp_apply, htn]
    rw [List.getD_eq_get? (indices.map f) j, hget]
    simp [hf, hmtn]

/-- Sequential shuffling: one `shuffle_options` call per element of
`perms`, left to right; fails if any single call fails. -/
def shuffleIter (q : Question) : List (List ℕ) → Option Question
  | [] => some q
  | p :: ps =>
    match q.shuffle_options p with
    | none => none
    | some q' => shuffleIter q' ps

lemma shuffleIter_spec (q : Question) (perms : List (List ℕ)) (hq : q.Valid)
    (hps : ∀ p ∈ perms, p.Perm (List.range q.options.length)) :
    ∃ q', shuffleIter q perms = some q' ∧ q'.Valid ∧
      q'.options.length = q.options.length ∧
      q'.correct_answers.card = q.correct_answers.card := by
  induction perms generalizing q with
  | nil => exact ⟨q, rfl, hq, rfl, rfl⟩
  | cons p ps ih =>
    obtain ⟨q', hsh, hv, _, hlen, _, hcard, _⟩ :=
      shuffle_spec q p hq (hps p (List.mem_cons_self p ps))
    have hps' : ∀ p' ∈ ps, p'.Perm (List.range q'.options.length) := by
      rw [hlen]
      exact fun p' hp' => hps p' (List.mem_cons_of_mem _ hp')
    obtain ⟨q'', hiter, hv', hlen', hcard'⟩ := ih q' hv hps'
    refine ⟨q'', ?_, hv', hlen'.trans hlen, hcard'.trans hcard⟩
    unfold shuffleIter
    rw [hsh]
    exact hiter

/-- C1: for every validly constructed Question and every shuffle (with the
drawn permutation being, as `random.shuffle` guarantees, a permutation of
`0..n-1`), the multiset of option texts is unchanged and the set of option
texts sitting at the 1-based `correct_answers` positions is unchanged:
exactly the previously correct texts are marked correct, and only those. -/
theorem shuffle_preserves_option_multiset_and_correct_texts
    (q : Question) (indices : List ℕ) (hq : q.Valid)
    (hp : indices.Perm (List.range q.options.length)) :
    ∃ q', q.shuffle_options indices = some q' ∧
      q'.options.Perm q.options ∧ correctTexts q' = correctTexts q := by
  obtain ⟨q', h1, _, _, _, h5, _, h7⟩ := shuffle_spec q indices hq hp
  exact ⟨q', h1, h5, h7⟩

/-- Concrete question used to instantiate the claim theorems. -/
def wq1 : Question :=
  { question := "q", options := ["a", "b", "c"], correct_answers := {2} }

/-- Witness for C1 at a concrete question and permutation. -/
theorem shuffle_preserves_option_multiset_and_correct_texts_witness :
    wq1.Valid ∧ ([2, 0, 1] : List ℕ).Perm (List.range 3) ∧
    ∃ q', wq1.shuffle_options [2, 0, 1] = some q' ∧
      q'.options.Perm wq1.options ∧ correctTexts q' = correctTexts wq1 :=
  ⟨by decide, by decide,
    shuffle_preserves_option_multiset_and_correct_texts wq1 [2, 0, 1]
      (by decide) (by decide)⟩

/-- C4: for any finite sequence of sequential `shuffle_options` calls on a
validly constructed Question, the cardinality of `correct_answers` after
the calls equals its cardinality before any call; since `perms` ranges
over every sequence (in particular every prefix of a longer run), the
cardinality is preserved after each individual call. -/
theorem shuffle_iter_preserves_correct_card
    (q : Question) (perms : List (List ℕ)) (hq : q.Valid)
    (hps : ∀ p ∈ perms, p.Perm (List.range q.options.length)) :
    ∃ q', shuffleIter q perms = some q' ∧
      q'.correct_answers.card = q.correct_answers.card := by
  obtain ⟨q', h1, _, _, h4⟩ := shuffleIter_spec q perms hq hps
  exact ⟨q', h1, h4⟩

/-- Witness for C4: two successive shuffles of a concrete question. -/
theorem shuffle_iter_preserves_correct_card_witness :
    wq1.Valid ∧
    (∀ p ∈ [[2, 0, 1], [1, 2, 0]], List.Perm p (List.range 3)) ∧
    ∃ q', shuffleIter wq1 [[2, 0, 1], [1, 2, 0]] = some q' ∧
      q'.correct_answers.card = wq1.correct_answers.card :=
  ⟨by decide, by decide,
    shuffle_iter_preserves_correct_card wq1 [[2, 0, 1], [1, 2, 0]]
      (by decide) (by decide)⟩

/-- C5: on a Question that passed construction-time validation,
`shuffle_options` cannot fail for any permutation `random.shuffle` can
produce: every option lookup and every `old_to_new` lookup is in range,
so the `none` branches are unreachable. -/
theorem shuffle_options_total_on_valid (q : Question) (indices : List ℕ)
    (hq : q.Valid) (hp : indices.Perm (List.range q.options.length)) :
    (q.shuffle_options indices).isSome = true := by
  obtain ⟨q', h1, _⟩ := shuffle_spec q indices hq hp
  rw [h1]
  rfl

/-- Witness for C5 at a concrete question and permutation. -/
theorem shuffle_options_total_on_valid_witness :
    wq1.Valid ∧ ([1, 2, 0] : List ℕ).Perm (List.range 3) ∧
    (wq1.shuffle_options [1, 2, 0]).isSome = true :=
  ⟨by decide, by decide,
    shuffle_options_total_on_valid wq1 [1, 2, 0] (by decide) (by decide)⟩

def grade_excellent : String := "отлично"

def grade_good : String := "хорошо"

def grade_satisfactory : String := "удовлетворительно"

def grade_unsatisfactory : String := "неудовлетворительно"

/-- The grade if-chain of `calculate_results` (models.py:145-152) as a
function of the percentage. -/
def gradeOf (p : ℚ) : String :=
  if 90 ≤ p then grade_excellent
  else if 75 ≤ p then grade_good
  else if 60 ≤ p then grade_satisfactory
  else grade_unsatisfactory

/-- Embedding of `CurrentTestState` (models.py:77-101).  The
`answers_history` dict is a function from integer keys to `Option`;
`timer_task` (a transport-layer handle) and the wall clock are not
modelled, so `start_time` is a plain number and `elapsed_time` is carried
unchanged by `calculate_results`. -/
structure CurrentTestState where
  questions : List Question
  current_index : ℤ := 0
  selected_answers : Finset ℤ := ∅
  answers_history : ℤ → Option (Finset ℤ) := fun _ => none
  start_time : ℚ := 0
  last_message_id : Option ℤ := none
  full_name : String := ""
  position : String := ""
  department : String := ""
  specialization : String := ""
  difficulty : Difficulty := Difficulty.basic
  correct_count : ℤ := 0
  total_questions : ℤ := 0
  percentage : ℚ := 0
  grade : String := ""
  elapsed_time : String := ""

/-- Pydantic construction of `CurrentTestState`, running the
`validate_index` validator (models.py:103-110): when `questions` is
non-empty (Python truthiness) an out-of-range `current_index` raises.
The repository itself always constructs sessions with the default
`current_index = 0` (upravlenie.py:104-111). -/
def mkCurrentTestState (questions : List Question) (current_index : ℤ) :
    Option CurrentTestState :=
  if questions ≠ [] ∧ (current_index < 0 ∨ (questions.length : ℤ) ≤ current_index) then
    none
  else
    some { questions := questions, current_index := current_index }

/-- Raw attribute assignment `state.current_index = v`.  The model_config
(models.py:101) does not enable `validate_assignment`, and Pydantic v2
does not re-run field validators on assignment by default, so no range
check happens here. -/
def CurrentTestState.set_current_index (s : CurrentTestState) (v : ℤ) :
    CurrentTestState :=
  { s with current_index := v }

/-- Embedding of `save_answer` (models.py:112-114): stores a copy of the
current selection under the given key, overwriting any prior entry. -/
def CurrentTestState.save_answer (s : CurrentTestState) (question_index : ℤ) :
    CurrentTestState :=
  { s with answers_history := fun i =>
      if i = question_index then some s.selected_answers else s.answers_history i }

/-- Embedding of `load_answer` (models.py:116-121): restores the selection
from history if present, else resets it to the empty set. -/
def CurrentTestState.load_answer (s : CurrentTestState) (question_index : ℤ) :
    CurrentTestState :=
  match s.answers_history question_index with
  | some a => { s with selected_answers := a }
  | none => { s with selected_answers := ∅ }

/-- Python `self.answers_history.get(idx, set())` (models.py:134). -/
def histGet (h : ℤ → Option (Finset ℤ)) (i : ℤ) : Finset ℤ :=
  (h i).getD ∅

/-- Embedding of `calculate_results` (models.py:123-158).  The Python
float arithmetic is embedded in `ℚ`; the comparisons against the integer
thresholds 90/75/60 and the values reachable here are exact in both.
The wall-clock `elapsed_time` computation is not modelled. -/
def CurrentTestState.calculate_results (s : CurrentTestState) : CurrentTestState :=
  let total := s.questions.length
  let correct := ((List.range total).filter (fun (idx : ℕ) =>
      histGet s.answers_history (idx : ℤ) =
        (s.questions.getD idx default).correct_answers)).length
  let percentage : ℚ := if 0 < total then ((correct : ℚ) / (total : ℚ)) * 100 else 0
  { s with
    total_questions := (total : ℤ),
    correct_count := (correct : ℤ),
    percentage := percentage,
    grade := gradeOf percentage }

lemma length_filter_range (n : ℕ) (p : ℕ → Prop) [DecidablePred p] :
    ((List.range n).filter (fun i => decide (p i))).length =
      ((Finset.range n).filter p).card := by
  induction n with
  | zero => rfl
  | succ n ih =>
    rw [List.range_succ, List.filter_append, List.length_append, Finset.range_succ,
      Finset.filter_insert]
    by_cases h : p n
    · rw [if_pos h, Finset.card_insert_of_not_mem
        (fun hmem => absurd (Finset.mem_range.mp (Finset.mem_filter.mp hmem).1)
          (lt_irrefl n))]
      simp [h, ih]
    · rw [if_neg h]
      simp [h, ih]

/-- C2: `calculate_results` sets `correct_count` to the number of indices
in `0..len(questions)-1` whose history entry (the empty set when absent)
is set-equal to that question's current `correct_answers`, and sets
`percentage` to `100 * correct_count / total_questions`, with `0` when
`total_questions = 0` and no division fault (the guard is taken before
dividing). -/
theorem calculate_results_count_and_percentage (s : CurrentTestState) :
    (s.calculate_results).correct_count =
      (((Finset.range s.questions.length).filter (fun (idx : ℕ) =>
        histGet s.answers_history (idx : ℤ) =
          (s.questions.getD idx default).correct_answers)).card : ℤ) ∧
    (s.calculate_results).total_questions = (s.questions.length : ℤ) ∧
    (s.calculate_results).percentage =
      (if s.questions.length = 0 then 0 else
        100 * ((s.calculate_results).correct_count : ℚ) /
          (s.questions.length : ℚ)) := by
  refine ⟨?_, rfl, ?_⟩
  · simp only [CurrentTestState.calculate_results]
    exact_mod_cast length_filter_range s.questions.length
      (fun idx => histGet s.answers_history (idx : ℤ) =
        (s.questions.getD idx default).correct_answers)
  · simp only [CurrentTestState.calculate_results]
    rcases Nat.eq_zero_or_pos s.questions.length with h | h
    · simp [h]
    · rw [if_pos h, if_neg (Nat.pos_iff_ne_zero.mp h)]
      push_cast
      ring

/-- C3: the grade is derived from the percentage by exactly the four
tiers of models.py:145-152, each inclusive at its lower bound; the spec's
boundary cases (`89.9`, `74.9`, `59.9` as the exact rationals they denote,
which compare to the integer thresholds exactly as the Python floats do)
land in the stated tiers. -/
theorem grade_four_tiers (s : CurrentTestState) (p : ℚ) :
    (s.calculate_results).grade = gradeOf (s.calculate_results).percentage ∧
    (90 ≤ p → gradeOf p = grade_excellent) ∧
    (75 ≤ p → p < 90 → gradeOf p = grade_good) ∧
    (60 ≤ p → p < 75 → gradeOf p = grade_satisfactory) ∧
    (p < 60 → gradeOf p = grade_unsatisfactory) ∧
    gradeOf 90 = grade_excellent ∧
    gradeOf (899 / 10) = grade_good ∧
    gradeOf 75 = grade_good ∧
    gradeOf (749 / 10) = grade_satisfactory ∧
    gradeOf 60 = grade_satisfactory ∧
    gradeOf (599 / 10) = grade_unsatisfactory := by
  refine ⟨rfl, ?_, ?_, ?_, ?_, by norm_num [gradeOf], by norm_num [gradeOf],
    by norm_num [gradeOf], by norm_num [gradeOf], by norm_num [gradeOf],
    by norm_num [gradeOf]⟩ <;>
    · intros
      unfold gradeOf
      split_ifs <;> first | rfl | linarith

/-- Concrete session used to instantiate the claim theorems. -/
def exSession : CurrentTestState := { questions := [wq1] }

/-- Witness for C3 at a concrete session and percentage. -/
theorem grade_four_tiers_witness :
    (exSession.calculate_results).grade =
      gradeOf (exSession.calculate_results).percentage ∧
    gradeOf 80 = grade_good :=
  ⟨(grade_four_tiers exSession 80).1,
    (grade_four_tiers exSession 80).2.2.1 (by norm_num) (by norm_num)⟩

/-- C7 counterexample: the claim includes "assignment to current_index"
among the operations that cannot leave `current_index` out of range, but
Pydantic v2 does not re-validate assignments unless `validate_assignment`
is enabled, and models.py:101 does not enable it.  Assigning 5 on a
1-question session leaves `current_index = 5`, outside `[0, 0]`, while
`questions` is non-empty. -/
theorem current_index_assignment_counterexample :
    (exSession.set_current_index 5).questions ≠ [] ∧
    ¬ (0 ≤ (exSession.set_current_index 5).current_index ∧
        (exSession.set_current_index 5).current_index <
          ((exSession.set_current_index 5).questions.length : ℤ)) := by
  refine ⟨by decide, ?_⟩
  intro hrange
  have h1 : (exSession.set_current_index 5).current_index = 5 := rfl
  have h2 : (exSession.set_current_index 5).questions.length = 1 := rfl
  rw [h1, h2] at hrange
  omega

/-- C7 (amended): `current_index` is range-checked at construction time
when `questions` is non-empty, and none of `save_answer`, `load_answer`,
`calculate_results` modifies it; raw attribute assignment, however, is not
re-validated. -/
theorem current_index_construction_invariant
    (qs : List Question) (ci : ℤ) (s s' : CurrentTestState) (i : ℤ)
    (h : mkCurrentTestState qs ci = some s) (hne : qs ≠ []) :
    (0 ≤ s.current_index ∧ s.current_index < (qs.length : ℤ)) ∧
    (s'.save_answer i).current_index = s'.current_index ∧
    (s'.load_answer i).current_index = s'.current_index ∧
    (s'.calculate_results).current_index = s'.current_index := by
  refine ⟨?_, rfl, ?_, rfl⟩
  · unfold mkCurrentTestState at h
    split_ifs at h with hcond
    · push_neg at hcond
      obtain ⟨h1, h2⟩ := hcond hne
      injection h with h'
      subst h'
      show 0 ≤ ci ∧ ci < (qs.length : ℤ)
      omega
  · unfold CurrentTestState.load_answer
    cases s'.answers_history i <;> rfl

/-- Witness for C7 (amended) at a concrete construction. -/
theorem current_index_construction_invariant_witness :
    mkCurrentTestState [wq1] 0 = some exSession ∧
    ([wq1] : List Question) ≠ [] ∧
    ((0 ≤ exSession.current_index ∧
        exSession.current_index < (([wq1] : List Question).length : ℤ)) ∧
      (exSession.save_answer 0).current_index = exSession.current_index ∧
      (exSession.load_answer 0).current_index = exSession.current_index ∧
      (exSession.calculate_results).current_index = exSession.current_index) :=
  ⟨rfl, by decide,
    current_index_construction_invariant [wq1] 0 exSession exSession 0 rfl
      (by decide)⟩

/-- The operations a session undergoes after creation.  `save`, `load` and
`calcResults` are the `CurrentTestState` methods (models.py:112-158);
`setIndex` is raw assignment to `current_index`.  `toggle` is modelled
from the spec: `handle_answer_toggle` lives in library code not among the
sources, and spec §4.3 defines it as set-XOR on `selected_answers`. -/
inductive SessionOp
  | save (i : ℤ)
  | load (i : ℤ)
  | toggle (k : ℤ)
  | setIndex (v : ℤ)
  | calcResults
deriving DecidableEq

def applyOp (s : CurrentTestState) : SessionOp → CurrentTestState
  | SessionOp.save i => s.save_answer i
  | SessionOp.load i => s.load_answer i
  | SessionOp.toggle k =>
      { s with selected_answers :=
          if k ∈ s.selected_answers then s.selected_answers.erase k
          else insert k s.selected_answers }
  | SessionOp.setIndex v => s.set_current_index v
  | SessionOp.calcResults => s.calculate_results

def applyOps (s : CurrentTestState) (ops : List SessionOp) : CurrentTestState :=
  ops.foldl applyOp s

/-- The history key an operation overwrites, if any: only `save_answer`
writes to `answers_history`. -/
def savedIndex : SessionOp → Option ℤ
  | SessionOp.save i => some i
  | _ => none

lemma applyOp_history_of_no_save (s : CurrentTestState) (op : SessionOp) (i : ℤ)
    (h : savedIndex op ≠ some i) :
    (applyOp s op).answers_history i = s.answers_history i := by
  cases op with
  | save j =>
    have hij : i ≠ j := by
      simp only [savedIndex, ne_eq, Option.some.injEq] at h
      exact fun e => h e.symm
    simp [applyOp, CurrentTestState.save_answer, hij]
  | load j =>
    show (s.load_answer j).answers_history i = s.answers_history i
    unfold CurrentTestState.load_answer
    cases s.answers_history j <;> rfl
  | toggle k => rfl
  | setIndex v => rfl
  | calcResults => rfl

lemma applyOps_history (s : CurrentTestState) (ops : List SessionOp) (i : ℤ)
    (h : ∀ op ∈ ops, savedIndex op ≠ some i) :
    (applyOps s ops).answers_history i = s.answers_history i := by
  induction ops generalizing s with
  | nil => rfl
  | cons op ops ih =>
    have hstep := applyOp_history_of_no_save s op i (h op (List.mem_cons_self op ops))
    have hrest := ih (applyOp s op) (fun op' hop' => h op' (List.mem_cons_of_mem _ hop'))
    calc (applyOps s (op :: ops)).answers_history i
        = (applyOps (applyOp s op) ops).answers_history i := rfl
      _ = (applyOp s op).answers_history i := hrest
      _ = s.answers_history i := hstep

/-- C9: `save_answer i` followed by any operations that do not overwrite
the history entry at `i` and then `load_answer i` restores exactly the
selection set that was saved; and loading an index with no history entry
resets the selection to the empty set. -/
theorem save_load_roundtrip (s : CurrentTestState) (i : ℤ) (ops : List SessionOp)
    (hops : ∀ op ∈ ops, savedIndex op ≠ some i)
    (j : ℤ) (hj : s.answers_history j = none) :
    ((applyOps (s.save_answer i) ops).load_answer i).selected_answers =
      s.selected_answers ∧
    (s.load_answer j).selected_answers = ∅ := by
  constructor
  · have hh : (applyOps (s.save_answer i) ops).answers_history i =
        some s.selected_answers := by
      rw [applyOps_history _ _ _ hops]
      simp [CurrentTestState.save_answer]
    unfold CurrentTestState.load_answer
    rw [hh]
  · unfold CurrentTestState.load_answer
    rw [hj]

/-- Concrete session with a non-empty selection, for the witnesses. -/
def st9 : CurrentTestState := { questions := [wq1], selected_answers := {2} }

/-- Witness for C9 at a concrete session and operation sequence. -/
theorem save_load_roundtrip_witness :
    (∀ op ∈ [SessionOp.toggle 1, SessionOp.save 1, SessionOp.load 0,
        SessionOp.calcResults], savedIndex op ≠ some 0) ∧
    st9.answers_history 5 = none ∧
    (((applyOps (st9.save_answer 0) [SessionOp.toggle 1, SessionOp.save 1,
        SessionOp.load 0, SessionOp.calcResults]).load_answer 0).selected_answers =
      st9.selected_answers ∧
    (st9.load_answer 5).selected_answers = ∅) :=
  ⟨by decide, rfl,
    save_load_roundtrip st9 0
      [SessionOp.toggle 1, SessionOp.save 1, SessionOp.load 0, SessionOp.calcResults]
      (by decide) 5 rfl⟩

/-- C10: `save_answer` accepts any integer key, in range or not, and
stores the current selection there; `calculate_results` reads the history
only at keys `0..len(questions)-1`, so `correct_count`, `percentage` and
`grade` agree for any two histories that agree at those keys. -/
theorem save_any_index_results_ignore_out_of_range
    (s : CurrentTestState) (i : ℤ) (h' : ℤ → Option (Finset ℤ))
    (hagree : ∀ idx ∈ Finset.range s.questions.length,
      h' (idx : ℤ) = s.answers_history (idx : ℤ)) :
    (s.save_answer i).answers_history i = some s.selected_answers ∧
    ({ s with answers_history := h' } : CurrentTestState).calculate_results.correct_count
      = s.calculate_results.correct_count ∧
    ({ s with answers_history := h' } : CurrentTestState).calculate_results.percentage
      = s.calculate_results.percentage ∧
    ({ s with answers_history := h' } : CurrentTestState).calculate_results.grade
      = s.calculate_results.grade := by
  have hfilter : (List.range s.questions.length).filter (fun (idx : ℕ) =>
        histGet h' (idx : ℤ) = (s.questions.getD idx default).correct_answers) =
      (List.range s.questions.length).filter (fun (idx : ℕ) =>
        histGet s.answers_history (idx : ℤ) =
          (s.questions.getD idx default).correct_answers) := by
    refine List.filter_congr ?_
    intro a ha
    have hlt : a < s.questions.length := List.mem_range.mp ha
    have : histGet h' (a : ℤ) = histGet s.answers_history (a : ℤ) := by
      unfold histGet
      rw [hagree a (Finset.mem_range.mpr hlt)]
    rw [this]
  simp only [List.getD_eq_getElem?_getD] at hfilter
  refine ⟨?_, ?_, ?_, ?_⟩ <;>
    simp [CurrentTestState.save_answer, CurrentTestState.calculate_results, hfilter]

/-- Witness for C10: store at the out-of-range key 99 and compare results
against a history that differs only at that key. -/
theorem save_any_index_results_ignore_out_of_range_witness :
    (∀ idx ∈ Finset.range st9.questions.length,
      (fun ii => if ii = (99 : ℤ) then some ({7} : Finset ℤ) else none) (idx : ℤ) =
        st9.answers_history (idx : ℤ)) ∧
    ((st9.save_answer 99).answers_history 99 = some st9.selected_answers ∧
      ({ st9 with answers_history :=
          fun ii => if ii = (99 : ℤ) then some ({7} : Finset ℤ) else none
        } : CurrentTestState).calculate_results.correct_count
        = st9.calculate_results.correct_count ∧
      ({ st9 with answers_history :=
          fun ii => if ii = (99 : ℤ) then some ({7} : Finset ℤ) else none
        } : CurrentTestState).calculate_results.percentage
        = st9.calculate_results.percentage ∧
      ({ st9 with answers_history :=
          fun ii => if ii = (99 : ℤ) then some ({7} : Finset ℤ) else none
        } : CurrentTestState).calculate_results.grade
        = st9.calculate_results.grade) :=
  ⟨by decide,
    save_any_index_results_ignore_out_of_range st9 99
      (fun ii => if ii = (99 : ℤ) then some ({7} : Finset ℤ) else none)
      (by decide)⟩

/-- A raw JSON record as the loader's per-record loop sees it
(question_loader.py:85-118), restricted to records whose fields are
present with the expected types (`question` a string, `options` a list of
strings, `correct_answers` a string); records of other shapes are also
skipped, by the `isinstance` check and the `except` clause, outside this
record space. -/
structure RawRecord where
  question : String
  options : List String
  correct_answers : String

/-- Python `str.split(",")`, written structurally over the character list
so that concrete records evaluate inside the kernel; e.g. the empty text
yields one empty token and "0,2" yields the tokens "0" and "2". -/
def splitCommas : List Char → List (List Char)
  | [] => [[]]
  | c :: rest =>
    match splitCommas rest with
    | [] => if c = ',' then [[], []] else [[c]]
    | t :: ts => if c = ',' then [] :: t :: ts else (c :: t) :: ts

/-- Python `str.strip()`: drop whitespace from both ends. -/
def pyStrip (cs : List Char) : List Char :=
  ((cs.dropWhile Char.isWhitespace).reverse.dropWhile Char.isWhitespace).reverse

/-- Python `str.isdigit()` on ASCII tokens: non-empty, all characters
decimal digits.  Note it accepts "0". -/
def pyIsDigit (cs : List Char) : Bool :=
  !cs.isEmpty && cs.all Char.isDigit

/-- Python `int()` on an all-digit token. -/
def digitsToNat (cs : List Char) : ℕ :=
  cs.foldl (fun acc c => 10 * acc + (c.toNat - ('0').toNat)) 0

/-- The correct-answer parse (question_loader.py:93-98): split on ",",
strip each token, keep the tokens passing `isdigit()`, convert with
`int`, collect into a set. -/
def parseCorrect (s : String) : Finset ℤ :=
  (((splitCommas s.data).map pyStrip).filterMap (fun x =>
    if pyIsDigit x then some ((digitsToNat x : ℕ) : ℤ) else none)).toFinset

/-- One iteration of the loader loop (question_loader.py:86-118) on a
well-typed record: skip (`none`) on fewer than 3 options, an empty parsed
correct set, a `ValidationError` from the `Question` constructor, or an
exception inside the mandatory `shuffle_options` call; otherwise the
freshly shuffled question.  `indices` is the permutation drawn inside
`shuffle_options`. -/
def processRecord (difficulty : Difficulty) (r : RawRecord) (indices : List ℕ) :
    Option Question :=
  if r.options.length < 3 then none
  else if parseCorrect r.correct_answers = ∅ then none
  else
    match mkQuestion r.question r.options (parseCorrect r.correct_answers) difficulty with
    | none => none
    | some q => q.shuffle_options indices

/-- The whole parsing loop (question_loader.py:84-118): one drawn
permutation per record; a skipped record contributes nothing and the loop
continues with the remaining records. -/
def loadQuestions (difficulty : Difficulty) :
    List RawRecord → List (List ℕ) → List Question
  | [], _ => []
  | _ :: _, [] => []
  | r :: rs, p :: ps =>
    match processRecord difficulty r p with
    | none => loadQuestions difficulty rs ps
    | some q => q :: loadQuestions difficulty rs ps

/-- The conditions under which the code actually skips a well-typed
record (question_loader.py:88-109 together with the `Question` field
constraints). -/
def codeSkipCond (r : RawRecord) : Prop :=
  r.options.length < 3 ∨ parseCorrect r.correct_answers = ∅ ∨
  r.question.length < 1 ∨ 2000 < r.question.length ∨ 6 < r.options.length ∨
  ∃ i ∈ parseCorrect r.correct_answers, ¬(1 ≤ i ∧ i ≤ (r.options.length : ℤ))

instance (r : RawRecord) : Decidable (codeSkipCond r) := by
  unfold codeSkipCond
  infer_instance

/-- Python `int()` on a stripped token: optional sign, then digits;
`none` when unparsable. -/
def tokenInt (cs : List Char) : Option ℤ :=
  match cs with
  | '-' :: rest => if pyIsDigit rest then some (-(digitsToNat rest : ℤ)) else none
  | '+' :: rest => if pyIsDigit rest then some ((digitsToNat rest : ℕ) : ℤ) else none
  | _ => if pyIsDigit cs then some ((digitsToNat cs : ℕ) : ℤ) else none

/-- The parse exactly as the claim words it: keep only tokens that parse
as positive integers, so "0", negative numbers and non-numeric text
contribute nothing.  Stated from the claim, for comparison with
`parseCorrect`. -/
def claimPosParse (s : String) : Finset ℤ :=
  (((splitCommas s.data).map pyStrip).filterMap (fun x =>
    match tokenInt x with
    | some n => if 0 < n then some n else none
    | none => none)).toFinset

/-- The skip condition exactly as the claim words it: the positive-parse
set is empty, or the option list has fewer than 3 entries, or a surviving
index is out of range. -/
def claimSkipCond (r : RawRecord) : Prop :=
  claimPosParse r.correct_answers = ∅ ∨ r.options.length < 3 ∨
  ∃ i ∈ claimPosParse r.correct_answers, ¬(1 ≤ i ∧ i ≤ (r.options.length : ℤ))

instance (r : RawRecord) : Decidable (claimSkipCond r) := by
  unfold claimSkipCond
  infer_instance

/-- The record refuting C6 as stated: a "0" token among the correct
answers. -/
def rec0 : RawRecord :=
  { question := "q", options := ["a", "b", "c"], correct_answers := "0,2" }

/-- C6 counterexample: on `rec0` the claim's skip condition is false (the
positive-integer parse yields {2}: non-empty, enough options, in range),
yet the code skips the record, because `isdigit` accepts "0", the parsed
set is {0, 2}, and 0 fails `validate_correct`, so the whole record is
dropped. -/
theorem loader_skip_claim_counterexample :
    processRecord Difficulty.basic rec0 [0, 1, 2] = none ∧ ¬ claimSkipCond rec0 := by
  constructor
  · decide
  · decide

lemma mkQuestion_eq_none_iff (question : String) (options : List String)
    (correct : Finset ℤ) (d : Difficulty) :
    mkQuestion question options correct d = none ↔
      ¬ (1 ≤ question.length ∧ question.length ≤ 2000 ∧
        3 ≤ options.length ∧ options.length ≤ 6 ∧
        correct.Nonempty ∧
        ∀ c ∈ correct, 1 ≤ c ∧ c ≤ (options.length : ℤ)) := by
  unfold mkQuestion
  split_ifs with h
  · constructor
    · intro hsome
      exact absurd hsome (by simp)
    · intro hnc
      exact absurd h hnc
  · constructor
    · intro _
      exact h
    · intro _
      rfl

lemma mkQuestion_eq_some (question : String) (options : List String)
    (correct : Finset ℤ) (d : Difficulty)
    (h : 1 ≤ question.length ∧ question.length ≤ 2000 ∧
      3 ≤ options.length ∧ options.length ≤ 6 ∧
      correct.Nonempty ∧
      ∀ c ∈ correct, 1 ≤ c ∧ c ≤ (options.length : ℤ)) :
    mkQuestion question options correct d =
      some { question := question, options := options,
             correct_answers := correct, difficulty := d } := by
  unfold mkQuestion
  rw [if_pos h]

/-- The `Question` instance the loader constructs for a surviving
record (question_loader.py:104-109). -/
def recQuestion (d : Difficulty) (r : RawRecord) : Question :=
  { question := r.question, options := r.options,
    correct_answers := parseCorrect r.correct_answers, difficulty := d }

/-- C6 (amended): for a well-typed record, with `shuffle_options` drawing
a genuine permutation, the loader skips the record iff the isdigit-parse
set is empty, or the option list is shorter than 3 or longer than 6, or
the prompt is empty or longer than 2000, or some parsed value is outside
`1..len(options)` — "0" passes `isdigit`, so a "0" token forces a skip
through the range check rather than being dropped from the set; and a
skip never aborts the loop: the head record contributes its own result
and the tail is processed unchanged. -/
theorem loader_skip_iff (d : Difficulty) (r : RawRecord) (indices : List ℕ)
    (hperm : indices.Perm (List.range r.options.length)) :
    (processRecord d r indices = none ↔ codeSkipCond r) ∧
    (∀ (rs : List RawRecord) (p : List ℕ) (ps : List (List ℕ)),
      loadQuestions d (r :: rs) (p :: ps) =
        (processRecord d r p).toList ++ loadQuestions d rs ps) := by
  constructor
  · have hbackward : codeSkipCond r → processRecord d r indices = none := by
      intro hcond
      unfold processRecord
      split_ifs with h1 h2
      · rfl
      · rfl
      · rcases hcond with h | h | h | h | h | h
        · exact absurd h h1
        · exact absurd h h2
        · rw [(mkQuestion_eq_none_iff _ _ _ d).mpr (fun hC => absurd hC.1 (by omega))]
        · rw [(mkQuestion_eq_none_iff _ _ _ d).mpr
            (fun hC => absurd hC.2.1 (by omega))]
        · rw [(mkQuestion_eq_none_iff _ _ _ d).mpr
            (fun hC => absurd hC.2.2.2.1 (by omega))]
        · obtain ⟨i, hi, hrange⟩ := h
          rw [(mkQuestion_eq_none_iff _ _ _ d).mpr
            (fun hC => hrange (hC.2.2.2.2.2 i hi))]
    have hforward : ¬ codeSkipCond r →
        ∃ q, processRecord d r indices = some q := by
      intro hcond
      unfold codeSkipCond at hcond
      push_neg at hcond
      obtain ⟨h1, h2, h3, h4, h5, h6⟩ := hcond
      have hC : 1 ≤ r.question.length ∧ r.question.length ≤ 2000 ∧
          3 ≤ r.options.length ∧ r.options.length ≤ 6 ∧
          (parseCorrect r.correct_answers).Nonempty ∧
          ∀ c ∈ parseCorrect r.correct_answers,
            1 ≤ c ∧ c ≤ (r.options.length : ℤ) := by
        refine ⟨by omega, by omega, by omega, by omega,
          Finset.nonempty_iff_ne_empty.mpr h2, fun c hc => h6 c hc⟩
      have hq : (recQuestion d r).Valid := hC
      obtain ⟨q', hsh, _⟩ := shuffle_spec (recQuestion d r) indices hq hperm
      refine ⟨q', ?_⟩
      unfold processRecord
      rw [if_neg (by omega), if_neg (fun he => h2 he),
        mkQuestion_eq_some _ _ _ _ hC]
      exact hsh
    constructor
    · intro hnone
      by_contra hcond
      obtain ⟨q, hq⟩ := hforward hcond
      rw [hq] at hnone
      cases hnone
    · exact hbackward
  · intro rs p ps
    show (match processRecord d r p with
      | none => loadQuestions d rs ps
      | some q => q :: loadQuestions d rs ps) =
      (processRecord d r p).toList ++ loadQuestions d rs ps
    cases processRecord d r p <;> rfl

/-- A clean concrete record, to instantiate the amended C6 theorem. -/
def rec1 : RawRecord :=
  { question := "q", options := ["a", "b", "c"], correct_answers := "1,3" }

/-- Witness for C6 (amended) at a concrete record and permutation. -/
theorem loader_skip_iff_witness :
    ([0, 1, 2] : List ℕ).Perm (List.range rec1.options.length) ∧
    ((processRecord Difficulty.basic rec1 [0, 1, 2] = none ↔ codeSkipCond rec1) ∧
      (∀ (rs : List RawRecord) (p : List ℕ) (ps : List (List ℕ)),
        loadQuestions Difficulty.basic (rec1 :: rs) (p :: ps) =
          (processRecord Difficulty.basic rec1 p).toList ++
            loadQuestions Difficulty.basic rs ps)) :=
  ⟨by decide, loader_skip_iff Difficulty.basic rec1 [0, 1, 2] (by decide)⟩

/-- The state Python's global `random` generator is in after
`random.seed(k)`: CPython guarantees it is a pure function of `k` alone.
The generator state is abstracted to a natural number. -/
def seedState (k : ℤ) : ℕ := k.natAbs

/-- Deterministic stand-in for `random.shuffle` driven by a generator
state: applies to the list a permutation depending only on the state (a
cyclic shift by `st`).  The claims about the question ordering rely only
on this determinism and on the result being a permutation of the input,
both of which CPython's MT19937-driven shuffle also has. -/
def pyShuffle (st : ℕ) (xs : List Question) : List Question :=
  xs.rotate st

/-- The question-ordering step of the loader (question_loader.py:127-131):
seed from `user_id` when it is truthy (not `None` and non-zero), shuffle
the surviving questions, then reseed from the OS — the reseeding affects
only later consumers, not this ordering.  When `user_id` is falsy the
shuffle consumes the ambient (OS-seeded, non-deterministic) state. -/
def orderQuestions (ambient : ℕ) (user_id : Option ℤ) (qs : List Question) :
    List Question :=
  let st := match user_id with
    | some k => if k = 0 then ambient else seedState k
    | none => ambient
  pyShuffle st qs

/-- The selection step (question_loader.py:134-141): the first
`target_count` questions, or all of them when fewer are available. -/
def selectQuestions (target_count : ℕ) (qs : List Question) : List Question :=
  qs.take target_count

/-- C8: two loader runs with the same non-zero user id and the same
surviving records produce the same question ordering — the applied
permutation does not depend on the ambient randomness of either run — and
hence the same selection; the ordering is a permutation of the input.
(The per-question option shuffles happen before this seeding and are
independent.) -/
theorem seeded_order_deterministic (a1 a2 : ℕ) (k : ℤ) (hk : k ≠ 0)
    (qs : List Question) (target_count : ℕ) :
    orderQuestions a1 (some k) qs = orderQuestions a2 (some k) qs ∧
    (orderQuestions a1 (some k) qs).Perm qs ∧
    selectQuestions target_count (orderQuestions a1 (some k) qs) =
      selectQuestions target_count (orderQuestions a2 (some k) qs) := by
  have h1 : orderQuestions a1 (some k) qs = qs.rotate (seedState k) := by
    unfold orderQuestions pyShuffle
    simp only [if_neg hk]
  have h2 : orderQuestions a2 (some k) qs = qs.rotate (seedState k) := by
    unfold orderQuestions pyShuffle
    simp only [if_neg hk]
  refine ⟨h1.trans h2.symm, ?_, by rw [h1, h2]⟩
  rw [h1]
  exact qs.rotate_perm (seedState k)

/-- Witness for C8 at a concrete seed, two ambient states and a concrete
question list. -/
theorem seeded_order_deterministic_witness :
    (7 : ℤ) ≠ 0 ∧
    (orderQuestions 3 (some 7) [wq1] = orderQuestions 12 (some 7) [wq1] ∧
      (orderQuestions 3 (some 7) [wq1]).Perm [wq1] ∧
      selectQuestions 30 (orderQuestions 3 (some 7) [wq1]) =
        selectQuestions 30 (orderQuestions 12 (some 7) [wq1])) :=
  ⟨by decide, seeded_order_deterministic 3 12 7 (by decide) [wq1] 30⟩

end QuizBot
